import Mathlib

/-!
Verification of the `bloom` package (HoangViet144/bloom): a Bloom filter
engine (`bloomFilterImpl`) driving an abstract bit-storage interface
(`BitSet`), with a Redis-backed shared storage backend (`RedisBitSet`).

Modelling conventions:
* Go `uint`/`uint64` values are `Nat` with explicit `% 2^64` where Go
  overflow semantics matter; Go byte slices and I/O streams are `List Nat`
  (each entry one byte), as exercised by the repository's tests which run
  all streams through in-memory `bytes.Buffer`s.
* The `BitSet` Go interface becomes a structure of operations over an
  abstract state type `σ`; the engine is generic over it exactly as the
  Go engine is.  The Redis backend state is a pair (remote store, handle);
  the remote store is an association list from key bytes to value bytes
  with Redis's documented SETBIT/GETBIT/BITCOUNT semantics.
* Go float64 computations (`EstimateParameters`, `ApproximatedSize`) are
  modelled over `ℝ` with `Real.log`; the empirical rate of
  `EstimateFalsePositiveRate` is modelled as an exact rational.
-/

namespace bloom

variable {σ : Type}

/-- Byte strings: one `Nat` per byte. -/
abbrev Bytes := List Nat

/-- A small JSON value model, used to state what Go's `encoding/json`
produces for `MarshalJSON` and accepts in `UnmarshalJSON`. -/
inductive Json where
  | null : Json
  | num : Nat → Json
  | str : String → Json
  | obj : List (String × Json) → Json

/-- Big-endian 4-byte encoding of a 32-bit value, as produced by Go's
`binary.BigEndian.PutUint32` (the argument is reduced mod `2^32` by the
`uint32` conversion at the call sites). -/
def be4 (x : Nat) : Bytes :=
  [x / 2 ^ 24 % 256, x / 2 ^ 16 % 256, x / 2 ^ 8 % 256, x % 256]

/-- Big-endian 8-byte encoding of a 64-bit value, as produced by
`binary.Write(stream, binary.BigEndian, uint64(v))`. -/
def be8 (x : Nat) : Bytes :=
  [x / 2 ^ 56 % 256, x / 2 ^ 48 % 256, x / 2 ^ 40 % 256, x / 2 ^ 32 % 256,
   x / 2 ^ 24 % 256, x / 2 ^ 16 % 256, x / 2 ^ 8 % 256, x % 256]

/-- Little-endian 8-byte encoding of a 64-bit word, as produced by
`binary.LittleEndian.PutUint64` in `RedisBitSet.From`. -/
def le8 (x : Nat) : Bytes :=
  [x % 256, x / 2 ^ 8 % 256, x / 2 ^ 16 % 256, x / 2 ^ 24 % 256,
   x / 2 ^ 32 % 256, x / 2 ^ 40 % 256, x / 2 ^ 48 % 256, x / 2 ^ 56 % 256]

/-- Big-endian value of a byte list. -/
def beVal (bs : Bytes) : Nat := bs.foldl (fun a b => a * 256 + b % 256) 0

/-- `binary.Read(stream, binary.BigEndian, &x)` for a `uint64` target: Go
uses `io.ReadFull`, so fewer than 8 available bytes is an error
(`io.EOF` / `io.ErrUnexpectedEOF`), modelled as `none`. -/
def readU64 (s : Bytes) : Option (Nat × Bytes) :=
  if 8 ≤ s.length then some (beVal (s.take 8), s.drop 8) else none

/-- Go's `bytes.Buffer.Read` into a fresh zero-filled buffer of length `n`:
returns `io.EOF` (modelled `none`) only when the stream is empty and
`n > 0`; otherwise it fills as many leading bytes as are available and
reports success, leaving the rest of the buffer zero.  Result: the `n`
bytes of the buffer after the read, the number of bytes actually read,
and the remaining stream. -/
def bufRead (s : Bytes) (n : Nat) : Option (Bytes × Nat × Bytes) :=
  if n = 0 then some ([], 0, s)
  else if s.length = 0 then none
  else some (s.take n ++ List.replicate (n - s.length) 0, min n s.length, s.drop n)

/-- The four 64-bit base hash values produced by Hash Expansion. -/
structure Hash4 where
  h0 : Nat
  h1 : Nat
  h2 : Nat
  h3 : Nat

/-- Modelled from the spec: the murmur3-based `baseHashes` function is not
under `src/` (only its callers are).  Spec §4.1 treats Hash Expansion as a
black-box deterministic function from a byte key to four 64-bit values;
this is a concrete deterministic stand-in with that shape.  None of the
theorems below depend on the particular values it produces, only on its
determinism. -/
def baseHashes (data : Bytes) : Hash4 :=
  let g : Nat → Nat := fun seed =>
    data.foldl (fun a b => (a * 1099511628211 + b + seed) % 2 ^ 64)
      ((14695981039346656037 + seed) % 2 ^ 64)
  ⟨g 0, g 1, g 2, g 3⟩

/-- Modelled from the spec: the package-level `location(h, i)` function is
not under `src/` (only its callers are).  Spec §4.2: for `i = 0` it is
`h0`, for `i = 1` it is `h1`, and for `i ≥ 2` it is
`h0 + (i-1)*h1 + (i-1)^2*h2` with unsigned 64-bit wraparound. -/
def locationRaw (h : Hash4) (i : Nat) : Nat :=
  if i = 0 then h.h0
  else if i = 1 then h.h1
  else (h.h0 + (i - 1) * h.h1 + (i - 1) ^ 2 * h.h2) % 2 ^ 64

/-- `bloomFilterImpl.location`: the `i`-th derived bit position,
`uint(location(h, i) % uint64(f.m))`.  Go's `%` panics when `f.m = 0`;
this total function gives the `m ≥ 1` behaviour (see `location?` for the
panic-aware version used to state the degenerate-`m` claims). -/
def location (h : Hash4) (i m : Nat) : Nat := locationRaw h i % m

/-- Panic-aware version of `bloomFilterImpl.location`: Go's integer `%`
raises a division-by-zero runtime panic when the divisor `f.m` is zero,
modelled by `none`. -/
def location? (h : Hash4) (i m : Nat) : Option Nat :=
  if m = 0 then none else some (locationRaw h i % m)

/-- The index `uint(locs[i] % uint64(f.m))` that `TestLocations` passes to
`b.Test` (again a division-by-zero panic when `f.m = 0` in Go). -/
def tlIndex (m v : Nat) : Nat := v % m

/-- The list of the `k` derived bit positions the engine's loops compute,
in loop order: `f.location(h, 0), …, f.location(h, k-1)`. -/
def locations (h : Hash4) (k m : Nat) : List Nat :=
  (List.range k).map (fun i => location h i m)

/-- The Go `BitSet` interface (declared next to the tests), as a record of
operations over an abstract backend state `σ`.  `WriteTo` returns the
bytes written; `ReadFrom` returns the state after the call (Go mutates the
receiver in place, so partially-updated state survives an error) together
with `some remainingStream` on success or `none` on error.  `toJson`
models what Go's reflective `encoding/json` marshaller produces for the
dynamic value stored in the interface. -/
structure BitSet (σ : Type) where
  Init : σ → Nat → σ
  Set : σ → Nat → σ
  UnSet : σ → Nat → σ
  InPlaceUnion : σ → σ → σ
  Test : σ → Nat → Bool
  ClearAll : σ → σ
  Count : σ → Nat
  WriteTo : σ → Bytes
  Equal : σ → σ → Bool
  GetBitSetKey : σ → Bytes
  ReadFrom : σ → Bytes → σ × Option Bytes
  From : σ → List Nat → σ
  toJson : σ → Json

/-- The engine struct: `bloomFilterImpl { m, k uint; b BitSet }`. -/
structure bloomFilterImpl (σ : Type) where
  m : Nat
  k : Nat
  b : σ

/-- `New(m, k, b)`: clamps the stored `m` and `k` to at least 1, and
installs `b.Init(m)` — note the *unclamped* `m` is what `Init` receives. -/
def New (ops : BitSet σ) (m k : Nat) (b : σ) : bloomFilterImpl σ :=
  { m := max 1 m, k := max 1 k, b := ops.Init b m }

/-- `FromWithM(data, m, k, b)`: installs the raw words without clamping. -/
def FromWithM (ops : BitSet σ) (data : List Nat) (m k : Nat) (b : σ) :
    bloomFilterImpl σ :=
  { m := m, k := k, b := ops.From b data }

/-- `From(data, k, b) = FromWithM(data, len(data)*64, k, b)`. -/
def From (ops : BitSet σ) (data : List Nat) (k : Nat) (b : σ) :
    bloomFilterImpl σ :=
  FromWithM ops data (data.length * 64) k b

/-- `bloomFilterImpl.Add`: sets the `k` derived locations in loop order. -/
def Add (ops : BitSet σ) (f : bloomFilterImpl σ) (data : Bytes) :
    bloomFilterImpl σ :=
  let h := baseHashes data
  { f with b := (locations h f.k f.m).foldl ops.Set f.b }

/-- `bloomFilterImpl.Test`: true iff all `k` derived locations are set
(the Go loop returns early on the first unset bit; `List.all`
short-circuits identically). -/
def Test (ops : BitSet σ) (f : bloomFilterImpl σ) (data : Bytes) : Bool :=
  (locations (baseHashes data) f.k f.m).all (ops.Test f.b)

/-- `bloomFilterImpl.TestLocations`: tests `uint(locs[i] % uint64(f.m))`
for each raw location. -/
def TestLocations (ops : BitSet σ) (f : bloomFilterImpl σ)
    (locs : List Nat) : Bool :=
  locs.all (fun v => ops.Test f.b (tlIndex f.m v))

/-- The loop of `bloomFilterImpl.TestAndAdd` over the derived locations:
at each location it first tests (clearing `present` on an unset bit) and
then unconditionally sets.  Instrumented with the list of indices passed
to `b.Set`, in call order, so the side-effect contract is statable. -/
def testAndAddGo (ops : BitSet σ) :
    List Nat → σ → Bool → Bool × σ × List Nat
  | [], b, present => (present, b, [])
  | l :: ls, b, present =>
      let present' := present && ops.Test b l
      let r := testAndAddGo ops ls (ops.Set b l) present'
      (r.1, r.2.1, l :: r.2.2)

/-- `bloomFilterImpl.TestAndAdd`: returns (result, updated filter, the
indices passed to `b.Set`). -/
def TestAndAdd (ops : BitSet σ) (f : bloomFilterImpl σ) (data : Bytes) :
    Bool × bloomFilterImpl σ × List Nat :=
  let r := testAndAddGo ops (locations (baseHashes data) f.k f.m) f.b true
  (r.1, { f with b := r.2.1 }, r.2.2)

/-- The loop of `bloomFilterImpl.TestOrAdd`: at each location it tests,
and only when the bit is unset does it clear `present` and call `b.Set`.
Instrumented with the list of indices passed to `b.Set`, in call order. -/
def testOrAddGo (ops : BitSet σ) :
    List Nat → σ → Bool → Bool × σ × List Nat
  | [], b, present => (present, b, [])
  | l :: ls, b, present =>
      if ops.Test b l then testOrAddGo ops ls b present
      else
        let r := testOrAddGo ops ls (ops.Set b l) false
        (r.1, r.2.1, l :: r.2.2)

/-- `bloomFilterImpl.TestOrAdd`: returns (result, updated filter, the
indices passed to `b.Set`). -/
def TestOrAdd (ops : BitSet σ) (f : bloomFilterImpl σ) (data : Bytes) :
    Bool × bloomFilterImpl σ × List Nat :=
  let r := testOrAddGo ops (locations (baseHashes data) f.k f.m) f.b true
  (r.1, { f with b := r.2.1 }, r.2.2)

/-- `bloomFilterImpl.ClearAll`. -/
def ClearAll (ops : BitSet σ) (f : bloomFilterImpl σ) : bloomFilterImpl σ :=
  { f with b := ops.ClearAll f.b }

/-- `bloomFilterImpl.Equal`: `f.m == g.Cap() && f.k == g.K() &&
f.b.Equal(g.BitSet())`. -/
def Equal (ops : BitSet σ) (f g : bloomFilterImpl σ) : Bool :=
  f.m == g.m && f.k == g.k && ops.Equal f.b g.b

/-- `bloomFilterImpl.WriteTo`: `uint64(f.m)` big-endian, then
`uint64(f.k)`, then the storage's own wire payload.  The model returns
the bytes written (writes to the in-memory buffers of the tests cannot
fail). -/
def WriteTo (ops : BitSet σ) (f : bloomFilterImpl σ) : Bytes :=
  be8 (f.m % 2 ^ 64) ++ be8 (f.k % 2 ^ 64) ++ ops.WriteTo f.b

/-- `bloomFilterImpl.ReadFrom`: reads `m`, `k` (returning early, with the
filter untouched, if either 8-byte read fails), then delegates to the
storage's `ReadFrom`.  On a storage-decode error the engine returns the
error without overwriting `m`/`k`, but the storage state keeps whatever
mutations the backend already performed (Go mutates the receiver in
place).  Returns the updated filter and `some remainingStream` on
success, `none` on error. -/
def ReadFrom (ops : BitSet σ) (f : bloomFilterImpl σ) (stream : Bytes) :
    bloomFilterImpl σ × Option Bytes :=
  match readU64 stream with
  | none => (f, none)
  | some (m', s1) =>
    match readU64 s1 with
    | none => (f, none)
    | some (k', s2) =>
      match ops.ReadFrom f.b s2 with
      | (b', none) => ({ f with b := b' }, none)
      | (b', some rest) => ({ m := m', k := k', b := b' }, some rest)

/-! ### The Redis-backed shared bit storage (`redis_bitset.go`)

The remote store is modelled as an association list from key bytes to
value bytes (most recent binding first); every Redis command used by the
backend (SETBIT, GETBIT, BITCOUNT, SET, GET) acts on it with Redis's
documented semantics: values are byte strings, bit `offset` lives in byte
`offset / 8` at position `offset % 8` counted from the most significant
bit, and SETBIT zero-pads the value so that the addressed byte exists.
TTLs do not expire inside a single modelled run, so the expiration only
travels along with the handle. -/

/-- The remote key-value store. -/
def RedisStore := List (Bytes × Bytes)

/-- `GET key` (missing key reads as the empty string, which is how Redis
bit commands treat absent keys). -/
def storeGet (s : RedisStore) (key : Bytes) : Bytes :=
  (List.lookup key s).getD []

/-- `SET key val` (TTL not modelled; see section comment). -/
def storeSet (s : RedisStore) (key val : Bytes) : RedisStore :=
  (key, val) :: s

/-- Bit `j` (0 = most significant) of a byte. -/
def getBitByte (byte j : Nat) : Bool := byte.testBit (7 - j)

/-- Set (v = 1) or clear (otherwise) bit `j` of a byte. -/
def setBitByte (byte j v : Nat) : Nat :=
  if v = 1 then byte ||| 2 ^ (7 - j)
  else if byte.testBit (7 - j) then byte - 2 ^ (7 - j) else byte

/-- `SETBIT` on a raw value: zero-pad so byte `offset / 8` exists, then
update that byte. -/
def redisSetBitVal (val : Bytes) (offset v : Nat) : Bytes :=
  let q := offset / 8
  let val' := val ++ List.replicate (q + 1 - val.length) 0
  val'.set q (setBitByte (val'.getD q 0) (offset % 8) v)

/-- `GETBIT` on a raw value: bits beyond the value read as 0. -/
def redisGetBitVal (val : Bytes) (offset : Nat) : Bool :=
  getBitByte (val.getD (offset / 8) 0) (offset % 8)

/-- Number of set bits in one byte (`BITCOUNT` counts per 8-bit byte). -/
def bytePopcount (byte : Nat) : Nat :=
  (List.range 8).countP (fun j => byte.testBit j)

/-- `RedisBitSet`: the in-process handle — external key plus TTL. -/
structure RedisHandle where
  bitsetKey : Bytes
  expiration : Nat

/-- The full state a `RedisBitSet` operation can read or write: the
remote store plus the handle. -/
abbrev RedisState := RedisStore × RedisHandle

/-- `RedisBitSet.Set`: `SETBIT key i 1`. -/
def RedisSet (st : RedisState) (i : Nat) : RedisState :=
  (storeSet st.1 st.2.bitsetKey
      (redisSetBitVal (storeGet st.1 st.2.bitsetKey) i 1), st.2)

/-- `RedisBitSet.UnSet`: `SETBIT key i 0`. -/
def RedisUnSet (st : RedisState) (i : Nat) : RedisState :=
  (storeSet st.1 st.2.bitsetKey
      (redisSetBitVal (storeGet st.1 st.2.bitsetKey) i 0), st.2)

/-- `RedisBitSet.Test`: `GETBIT key i == 1`. -/
def RedisTest (st : RedisState) (i : Nat) : Bool :=
  redisGetBitVal (storeGet st.1 st.2.bitsetKey) i

/-- `RedisBitSet.Init(length)`: implemented as `UnSet(length)`. -/
def RedisInit (st : RedisState) (length : Nat) : RedisState :=
  RedisUnSet st length

/-- `RedisBitSet.ClearAll`: `SET key ""` (with the configured TTL). -/
def RedisClearAll (st : RedisState) : RedisState :=
  (storeSet st.1 st.2.bitsetKey [], st.2)

/-- `RedisBitSet.Count`: `BITCOUNT key`. -/
def RedisCount (st : RedisState) : Nat :=
  ((storeGet st.1 st.2.bitsetKey).map bytePopcount).sum

/-- `RedisBitSet.InPlaceUnion`: `BITOP OR key otherKey` — the remote
store ORs the two values byte-wise (shorter value zero-padded) into the
destination key. -/
def RedisInPlaceUnion (st : RedisState) (other : RedisState) : RedisState :=
  let a := storeGet st.1 st.2.bitsetKey
  let b := storeGet st.1 other.2.bitsetKey
  let n := max a.length b.length
  let or := (List.range n).map (fun i => a.getD i 0 ||| b.getD i 0)
  (storeSet st.1 st.2.bitsetKey or, st.2)

/-- `RedisBitSet.Equal`: fetches both raw values through the receiver's
own client and compares them as strings (`r.redisClient.Get(r.bitsetKey)`
versus `r.redisClient.Get(c.GetBitSetKey())`). -/
def RedisEqual (st other : RedisState) : Bool :=
  storeGet st.1 st.2.bitsetKey == storeGet st.1 other.2.bitsetKey

/-- `RedisBitSet.WriteTo`: `len(key)` as big-endian `uint64`, the key
bytes, the TTL as `uint64`, `len(value)` as `uint64`, then the raw value
fetched from the store. -/
def RedisWriteTo (st : RedisState) : Bytes :=
  let val := storeGet st.1 st.2.bitsetKey
  be8 (st.2.bitsetKey.length % 2 ^ 64) ++ st.2.bitsetKey ++
    be8 (st.2.expiration % 2 ^ 64) ++ be8 (val.length % 2 ^ 64) ++ val

/-- `RedisBitSet.ReadFrom`: reads the key length, the key bytes (a
`stream.Read` that may legally read fewer bytes than requested without
reporting an error, leaving the zero-filled tail of the buffer in place),
the TTL, the value length and the value bytes, then stores the value
under the decoded key.  The receiver's key and TTL are overwritten as
soon as they are decoded, so they survive a later error (Go mutates the
receiver in place). -/
def RedisReadFrom (st : RedisState) (stream : Bytes) :
    RedisState × Option Bytes :=
  match readU64 stream with
  | none => (st, none)
  | some (klen, s1) =>
    match bufRead s1 klen with
    | none => (st, none)
    | some (keyBytes, _, s2) =>
      let st1 : RedisState := (st.1, { st.2 with bitsetKey := keyBytes })
      match readU64 s2 with
      | none => (st1, none)
      | some (ttl, s3) =>
        let st2 : RedisState := (st1.1, { st1.2 with expiration := ttl })
        match readU64 s3 with
        | none => (st2, none)
        | some (vlen, s4) =>
          match bufRead s4 vlen with
          | none => (st2, none)
          | some (data, _, s5) =>
            ((storeSet st2.1 st2.2.bitsetKey data, st2.2), some s5)

/-- `RedisBitSet.From(buf)`: `SET key (little-endian bytes of the words)`. -/
def RedisFrom (st : RedisState) (buf : List Nat) : RedisState :=
  (storeSet st.1 st.2.bitsetKey (buf.flatMap le8), st.2)

/-- Go's `encoding/json` output for a `*RedisBitSet` stored in the
`BitSet` interface: the struct has only unexported fields and no
`MarshalJSON` method, so it marshals as the empty object. -/
def redisToJson (_ : RedisState) : Json := Json.obj []

/-- The `BitSet` interface as implemented by `RedisBitSet`. -/
def redisOps : BitSet RedisState where
  Init := RedisInit
  Set := RedisSet
  UnSet := RedisUnSet
  InPlaceUnion := RedisInPlaceUnion
  Test := RedisTest
  ClearAll := RedisClearAll
  Count := RedisCount
  WriteTo := RedisWriteTo
  Equal := RedisEqual
  GetBitSetKey := fun st => st.2.bitsetKey
  ReadFrom := RedisReadFrom
  From := RedisFrom
  toJson := redisToJson

/-! ### The Local bit storage backend -/

/-- Modelled from the spec: the Local ("private, single-owner, in-memory")
bit storage backend named by §2 and §4.4 is not under `src/`.  Following
the spec's words it is a plain word-array bit vector: 64-bit words,
bit `i` living in word `i / 64` at position `i % 64`. -/
abbrev LocalBitSet := List Nat

/-- Modelled from the spec: Local `Set` — grow with zero words so the
addressed word exists, then set the bit. -/
def localSet (ws : LocalBitSet) (i : Nat) : LocalBitSet :=
  let q := i / 64
  let ws' := ws ++ List.replicate (q + 1 - ws.length) 0
  ws'.set q (ws'.getD q 0 ||| 2 ^ (i % 64))

/-- Modelled from the spec: Local `UnSet`. -/
def localUnSet (ws : LocalBitSet) (i : Nat) : LocalBitSet :=
  let q := i / 64
  let w := ws.getD q 0
  ws.set q (if w.testBit (i % 64) then w - 2 ^ (i % 64) else w)

/-- Modelled from the spec: Local `Test` — bits beyond the array read 0. -/
def localTest (ws : LocalBitSet) (i : Nat) : Bool :=
  (ws.getD (i / 64) 0).testBit (i % 64)

/-- Number of set bits in the low 64 bits of a word. -/
def wordPopcount (w : Nat) : Nat :=
  (List.range 64).countP (fun j => w.testBit j)

/-- Modelled from the spec: the Local backend's wire payload
(backend-defined per §6): the word count as a big-endian `uint64`
followed by each word as a big-endian `uint64`. -/
def LocalWriteTo (ws : LocalBitSet) : Bytes :=
  be8 (ws.length % 2 ^ 64) ++ ws.flatMap (fun w => be8 (w % 2 ^ 64))

/-- Read `n` big-endian `uint64` words from a stream. -/
def readWords : Nat → Bytes → Option (List Nat × Bytes)
  | 0, s => some ([], s)
  | n + 1, s =>
    match readU64 s with
    | none => none
    | some (w, s') =>
      match readWords n s' with
      | none => none
      | some (ws, rest) => some (w :: ws, rest)

/-- Modelled from the spec: Local `ReadFrom`, inverse of `LocalWriteTo`;
on a malformed stream the state is unchanged and `none` is returned. -/
def LocalReadFrom (ws : LocalBitSet) (stream : Bytes) :
    LocalBitSet × Option Bytes :=
  match readU64 stream with
  | none => (ws, none)
  | some (n, s1) =>
    match readWords n s1 with
    | none => (ws, none)
    | some (ws', rest) => (ws', some rest)

/-- Modelled from the spec: the Local backend's `BitSet` dictionary.
`Init` allocates a cleared word array covering `length` bits; `Equal`
compares the word arrays; `From` installs the words as-is; the reflective
JSON form of the dynamic value is irrelevant to the claims (decoding into
the `BitSet` interface fails before it is consulted). -/
def localOps : BitSet LocalBitSet where
  Init := fun _ len => List.replicate ((len + 63) / 64) 0
  Set := localSet
  UnSet := localUnSet
  InPlaceUnion := fun a b =>
    (List.range (max a.length b.length)).map (fun i => a.getD i 0 ||| b.getD i 0)
  Test := localTest
  ClearAll := fun ws => List.replicate ws.length 0
  Count := fun ws => (ws.map wordPopcount).sum
  WriteTo := LocalWriteTo
  Equal := fun a b => a == b
  GetBitSetKey := fun _ => []
  ReadFrom := LocalReadFrom
  From := fun _ buf => buf
  toJson := fun _ => Json.obj []

/-- An observation instance of the `BitSet` interface: its state records
the arguments passed to `Init`, most recent first.  The Go interface
admits arbitrary implementations, so this is a legitimate backend for
observing which length the engine hands to `Init`. -/
def recOps : BitSet (List Nat) where
  Init := fun s len => len :: s
  Set := fun s _ => s
  UnSet := fun s _ => s
  InPlaceUnion := fun s _ => s
  Test := fun _ _ => false
  ClearAll := fun s => s
  Count := fun _ => 0
  WriteTo := fun _ => []
  Equal := fun _ _ => true
  GetBitSetKey := fun _ => []
  ReadFrom := fun s st => (s, some st)
  From := fun s _ => s
  toJson := fun _ => Json.obj []

/-! ### Structured (JSON) interchange and the estimators -/

/-- `bloomFilterImpl.MarshalJSON`: marshals
`bloomFilterJSON{M: f.m, K: f.k, B: f.b}`.  The `B` field holds the
`BitSet` interface, so Go marshals its dynamic value reflectively
(`toJson`); for a `*RedisBitSet` that is the empty object, since the
struct has only unexported fields and no marshaller of its own. -/
def MarshalJSON (ops : BitSet σ) (f : bloomFilterImpl σ) : Json :=
  Json.obj [("m", Json.num f.m), ("k", Json.num f.k), ("b", ops.toJson f.b)]

/-- `bloomFilterImpl.UnmarshalJSON`: decodes into
`bloomFilterJSON{M uint; K uint; B BitSet}` and installs the three fields.
Go's `encoding/json` cannot instantiate a value of the non-empty
interface type `BitSet`: decoding succeeds only when the `b` field is
absent or JSON `null` (leaving the interface nil), and fails with an
`UnmarshalTypeError` on any other `b` payload — in particular on the
object that `MarshalJSON` itself emits.  The model returns the decoded
`(m, k)` on success and `none` on error. -/
def UnmarshalJSON (j : Json) : Option (Nat × Nat) :=
  match j with
  | Json.obj fs =>
    let mv : Option Nat :=
      match fs.lookup "m" with
      | some (Json.num m) => some m
      | none => some 0
      | _ => none
    let kv : Option Nat :=
      match fs.lookup "k" with
      | some (Json.num k) => some k
      | none => some 0
      | _ => none
    match mv, kv, fs.lookup "b" with
    | some m, some k, none => some (m, k)
    | some m, some k, some Json.null => some (m, k)
    | _, _, _ => none
  | _ => none

/-- `EstimateParameters(n, p)`:
`m = ceil(-n * ln p / (ln 2)^2)`, `k = ceil(ln 2 * m / n)`.
Go computes this with `float64`; the model uses exact real arithmetic. -/
noncomputable def EstimateParameters (n : Nat) (p : ℝ) : Nat × Nat :=
  let m : Nat := ⌈-1 * (n : ℝ) * Real.log p / Real.log 2 ^ 2⌉₊
  let k : Nat := ⌈Real.log 2 * (m : ℝ) / (n : ℝ)⌉₊
  (m, k)

/-- `NewWithEstimates(n, fp, b) = New(EstimateParameters(n, fp), b)`. -/
noncomputable def NewWithEstimates (ops : BitSet σ) (n : Nat) (fp : ℝ)
    (b : σ) : bloomFilterImpl σ :=
  New ops (EstimateParameters n fp).1 (EstimateParameters n fp).2 b

/-- `bloomFilterImpl.ApproximatedSize`:
`uint32(floor(-1 * m / k * ln(1 - x/m) / ln(e) + 0.5))` with
`x = b.Count()`.  Go computes this with `float64`; the model uses exact
real arithmetic. -/
noncomputable def ApproximatedSize (ops : BitSet σ)
    (f : bloomFilterImpl σ) : Nat :=
  let x : ℝ := ops.Count f.b
  let m : ℝ := f.m
  let k : ℝ := f.k
  ⌊-1 * m / k * Real.log (1 - x / m) / Real.log (Real.exp 1) + 1 / 2⌋₊

/-- `EstimateFalsePositiveRate(m, k, n, b)`: builds `New(m, k, b)`, adds
the 4-byte big-endian encodings of `uint32(0) .. uint32(n)-1`, counts how
many of the 100000 probes `uint32(i) + uint32(n) + 1` (for
`i = 0 .. 99999`) test positive, and returns `hits / 100000` (a
`float64` division in Go, an exact rational here). -/
def EstimateFalsePositiveRate (ops : BitSet σ) (m k n : Nat) (b : σ) : ℚ :=
  let f := New ops m k b
  let f := (List.range (n % 2 ^ 32)).foldl (fun g i => Add ops g (be4 i)) f
  let fp := ((List.range 100000).filter
      (fun i => Test ops f (be4 ((i + n % 2 ^ 32 + 1) % 2 ^ 32)))).length
  (fp : ℚ) / 100000

/-! ### The bit-storage observation law

Spec §4.4 demands of every backend that `Set i` makes bit `i` read as set
and leaves every other bit unchanged.  The engine theorems are generic in
any backend satisfying this law; it is proved below for the Redis
backend. -/

/-- After `Set b i`, `Test` reads bit `i` as set and all others as
before. -/
def TestSetLaw (ops : BitSet σ) : Prop :=
  ∀ b i j, ops.Test (ops.Set b i) j = (decide (j = i) || ops.Test b j)

theorem storeGet_storeSet_self (s : RedisStore) (key val : Bytes) :
    storeGet (storeSet s key val) key = val := by
  simp [storeGet, storeSet, List.lookup_cons]

theorem getD_append_replicate_zero (val : Bytes) (n t : Nat) :
    (val ++ List.replicate n 0).getD t 0 = val.getD t 0 := by
  rcases lt_or_ge t val.length with h | h
  · simp [List.getD_eq_getElem?_getD, List.getElem?_append_left h]
  · rw [List.getD_eq_getElem?_getD, List.getElem?_append_right h,
      List.getD_eq_getElem?_getD, List.getElem?_eq_none h,
      List.getElem?_replicate]
    split <;> rfl

theorem getBit_setBitByte (byte r r' : Nat) (hr : r < 8) (hr' : r' < 8) :
    getBitByte (setBitByte byte r 1) r'
      = (decide (r' = r) || getBitByte byte r') := by
  unfold getBitByte setBitByte
  rw [if_pos rfl, Nat.testBit_lor, Nat.testBit_two_pow, Bool.or_comm]
  have : (7 - r = 7 - r') ↔ (r' = r) := by omega
  rw [decide_eq_decide.mpr this]

theorem redisGetBit_setBit (val : Bytes) (i j : Nat) :
    redisGetBitVal (redisSetBitVal val i 1) j
      = (decide (j = i) || redisGetBitVal val j) := by
  unfold redisSetBitVal redisGetBitVal
  have hlen : i / 8 < (val ++ List.replicate (i / 8 + 1 - val.length) 0).length := by
    simp only [List.length_append, List.length_replicate]
    omega
  by_cases hq : j / 8 = i / 8
  · rw [hq, List.getD_eq_getElem?_getD, List.getElem?_set_self hlen,
      Option.getD_some, getD_append_replicate_zero,
      getBit_setBitByte _ _ _ (Nat.mod_lt _ (by norm_num)) (Nat.mod_lt _ (by norm_num))]
    rw [decide_eq_decide.mpr (show (j % 8 = i % 8) ↔ (j = i) by omega)]
  · have hne : j ≠ i := fun hh => hq (by rw [hh])
    rw [List.getD_eq_getElem?_getD,
      List.getElem?_set_ne (fun hh => hq hh.symm),
      ← List.getD_eq_getElem?_getD, getD_append_replicate_zero]
    simp [hne]

/-- The Redis backend satisfies the observation law. -/
theorem redis_TestSetLaw : TestSetLaw redisOps := by
  intro st i j
  show RedisTest (RedisSet st i) j = _
  unfold RedisTest RedisSet
  rw [storeGet_storeSet_self]
  exact redisGetBit_setBit _ i j

/-- A fresh (empty-store) Redis state reads every bit as unset. -/
theorem redis_fresh_all_unset (hdl : RedisHandle) (j : Nat) :
    RedisTest (([] : RedisStore), hdl) j = false := by
  simp [RedisTest, storeGet, redisGetBitVal, getBitByte, List.lookup]

theorem Test_foldl_Set (ops : BitSet σ) (hlaw : TestSetLaw ops)
    (L : List Nat) (b : σ) (x : Nat) :
    ops.Test (L.foldl ops.Set b) x = (L.contains x || ops.Test b x) := by
  induction L generalizing b with
  | nil => simp
  | cons l L ih =>
    rw [List.foldl_cons, ih, hlaw, List.contains_cons]
    by_cases h : x = l
    · simp [h]
    · have hb : (x == l) = false := beq_eq_false_iff_ne.mpr h
      simp [h, hb]

/-- `Add` leaves `m` and `k` unchanged and only folds `Set` over the
derived locations. -/
theorem Add_b (ops : BitSet σ) (f : bloomFilterImpl σ) (data : Bytes) :
    Add ops f data
      = { f with b := (locations (baseHashes data) f.k f.m).foldl ops.Set f.b } :=
  rfl

/-- Membership in an `Add` target survives any further `Add`. -/
theorem Test_mono_Add (ops : BitSet σ) (hlaw : TestSetLaw ops)
    (g : bloomFilterImpl σ) (x y : Bytes) (h : Test ops g x = true) :
    Test ops (Add ops g y) x = true := by
  unfold Test Add at *
  rw [List.all_eq_true] at h ⊢
  intro l hl
  rw [Test_foldl_Set ops hlaw, h l hl]
  simp

/-- Adding a key makes all of its derived locations test positive. -/
theorem Test_Add_self (ops : BitSet σ) (hlaw : TestSetLaw ops)
    (f : bloomFilterImpl σ) (x : Bytes) :
    Test ops (Add ops f x) x = true := by
  show (locations (baseHashes x) f.k f.m).all
      (ops.Test ((locations (baseHashes x) f.k f.m).foldl ops.Set f.b)) = true
  rw [List.all_eq_true]
  intro l hl
  have hc : (locations (baseHashes x) f.k f.m).contains l = true := by
    simpa using hl
  rw [Test_foldl_Set ops hlaw, hc]
  simp

/-- The `Set` calls of `TestAndAdd` are exactly the derived locations,
in loop order, independently of the prior bit state. -/
theorem testAndAddGo_calls (ops : BitSet σ) (ls : List Nat) (b : σ) (p : Bool) :
    (testAndAddGo ops ls b p).2.2 = ls := by
  induction ls generalizing b p with
  | nil => rfl
  | cons l ls ih => simp [testAndAddGo, ih]

/-- The `Set` calls of `TestOrAdd` are among the derived locations. -/
theorem testOrAddGo_calls_sub (ops : BitSet σ) (ls : List Nat) (b : σ) (p : Bool) :
    ∀ x ∈ (testOrAddGo ops ls b p).2.2, x ∈ ls := by
  induction ls generalizing b p with
  | nil => intro x hx; simp [testOrAddGo] at hx
  | cons l ls ih =>
    intro x hx
    simp only [testOrAddGo] at hx
    by_cases ht : ops.Test b l
    · rw [if_pos ht] at hx
      exact List.mem_cons_of_mem _ (ih b p x hx)
    · rw [if_neg ht] at hx
      simp only [List.mem_cons] at hx ⊢
      rcases hx with hx | hx
      · exact Or.inl hx
      · exact Or.inr (ih _ _ x hx)

/-- C1: for every filter with `m ≥ 1` and `k ≥ 1` over a backend obeying
the bit-storage contract, and every key `x`, `Test x` returns true
immediately after `Add x`, and remains true after any further `Add`
calls with arbitrary other keys — bits only ever gain under `Add`. -/
theorem no_false_negatives (ops : BitSet σ) (hlaw : TestSetLaw ops)
    (f : bloomFilterImpl σ) (hm : 1 ≤ f.m) (hk : 1 ≤ f.k)
    (x : Bytes) (ys : List Bytes) :
    Test ops (Add ops f x) x = true ∧
    Test ops (ys.foldl (Add ops) (Add ops f x)) x = true := by
  have h1 := Test_Add_self ops hlaw f x
  refine ⟨h1, ?_⟩
  have aux : ∀ (zs : List Bytes) (g : bloomFilterImpl σ),
      Test ops g x = true → Test ops (zs.foldl (Add ops) g) x = true := by
    intro zs
    induction zs with
    | nil => intro g hg; exact hg
    | cons y zs ih => intro g hg; exact ih _ (Test_mono_Add ops hlaw g x y hg)
  exact aux ys _ h1

/-- A concrete Redis-backed filter used by the witnesses: `m = 8`,
`k = 2`, fresh store, handle key `[107]`. -/
def sampleRedisFilter : bloomFilterImpl RedisState :=
  ⟨8, 2, (([] : RedisStore), ⟨[107], 0⟩)⟩

/-- Witness for C1 at a concrete Redis-backed filter. -/
theorem no_false_negatives_witness :
    TestSetLaw redisOps ∧ 1 ≤ sampleRedisFilter.m ∧ 1 ≤ sampleRedisFilter.k ∧
    (Test redisOps (Add redisOps sampleRedisFilter [1]) [1] = true ∧
     Test redisOps
       ([[2], [3]].foldl (Add redisOps) (Add redisOps sampleRedisFilter [1]))
       [1] = true) :=
  ⟨redis_TestSetLaw, by decide, by decide,
    no_false_negatives redisOps redis_TestSetLaw sampleRedisFilter
      (by decide) (by decide) [1] [[2], [3]]⟩

/-- C5: for `m ≥ 1`, every bit index the engine passes to the storage —
`location` (used by `Add`, `Test`, `TestAndAdd`, `TestOrAdd`, all of
whose loops only touch elements of `locations`, as the instrumented
`Set`-call lists confirm) and `tlIndex` (used by `TestLocations`) — is
strictly less than `m`, because every derived value is reduced mod `m`
before use. -/
theorem in_range_indexing (ops : BitSet σ) (f : bloomFilterImpl σ)
    (hm : 1 ≤ f.m) (h : Hash4) (i v : Nat) (data : Bytes) :
    location h i f.m < f.m ∧
    (∃ l, location? h i f.m = some l ∧ l < f.m) ∧
    tlIndex f.m v < f.m ∧
    (∀ l ∈ locations (baseHashes data) f.k f.m, l < f.m) ∧
    (∀ l ∈ (TestAndAdd ops f data).2.2, l < f.m) ∧
    (∀ l ∈ (TestOrAdd ops f data).2.2, l < f.m) := by
  have hm0 : 0 < f.m := by omega
  have hloc : ∀ (hh : Hash4) (ii : Nat), location hh ii f.m < f.m :=
    fun hh ii => Nat.mod_lt _ hm0
  have hlocs : ∀ l ∈ locations (baseHashes data) f.k f.m, l < f.m := by
    intro l hl
    simp only [locations, List.mem_map] at hl
    obtain ⟨a, _, rfl⟩ := hl
    exact hloc _ a
  refine ⟨hloc h i, ⟨location h i f.m, ?_, hloc h i⟩, Nat.mod_lt _ hm0,
    hlocs, ?_, ?_⟩
  · rw [location?, if_neg (by omega)]
    rfl
  · show ∀ l ∈ (testAndAddGo ops (locations (baseHashes data) f.k f.m)
        f.b true).2.2, l < f.m
    rw [testAndAddGo_calls]
    exact hlocs
  · show ∀ l ∈ (testOrAddGo ops (locations (baseHashes data) f.k f.m)
        f.b true).2.2, l < f.m
    intro l hl
    exact hlocs l (testOrAddGo_calls_sub ops _ f.b true l hl)

/-- Witness for C5 at a concrete Redis-backed filter. -/
theorem in_range_indexing_witness :
    1 ≤ sampleRedisFilter.m ∧
    (location ⟨3, 5, 7, 9⟩ 4 sampleRedisFilter.m < sampleRedisFilter.m ∧
     (∃ l, location? ⟨3, 5, 7, 9⟩ 4 sampleRedisFilter.m = some l ∧
        l < sampleRedisFilter.m) ∧
     tlIndex sampleRedisFilter.m 123 < sampleRedisFilter.m ∧
     (∀ l ∈ locations (baseHashes [4, 5]) sampleRedisFilter.k
        sampleRedisFilter.m, l < sampleRedisFilter.m) ∧
     (∀ l ∈ (TestAndAdd redisOps sampleRedisFilter [4, 5]).2.2,
        l < sampleRedisFilter.m) ∧
     (∀ l ∈ (TestOrAdd redisOps sampleRedisFilter [4, 5]).2.2,
        l < sampleRedisFilter.m)) :=
  ⟨by decide,
    in_range_indexing redisOps sampleRedisFilter (by decide) ⟨3, 5, 7, 9⟩ 4 123 [4, 5]⟩

/-- C10: `From` and `FromWithM` apply no clamping — `m = len(data)*64`
and `k` exactly as given, so the empty slice yields `m = 0`, for which
every location derivation the membership operations would perform is a
division by zero (Go panic, `location? = none`), violating the `m ≥ 1`
premise of the in-range guarantee. -/
theorem From_unclamped (ops : BitSet σ) (data : List Nat) (m k : Nat) (b : σ) :
    (From ops data k b).m = data.length * 64 ∧
    (From ops data k b).k = k ∧
    (FromWithM ops data m k b).m = m ∧
    (FromWithM ops data m k b).k = k ∧
    (From ops ([] : List Nat) k b).m = 0 ∧
    (∀ h i, location? h i ((From ops ([] : List Nat) k b).m) = none) :=
  ⟨rfl, rfl, rfl, rfl, rfl, fun _ _ => rfl⟩

/-- C4 counterexample: `New(0, 0, storage)` stores `m = 1` but passes the
*unclamped* `0` to `Init`, as the recording backend observes — the
storage is initialized to logical length `0`, not to the filter's `m`. -/
theorem New_init_arg_cex :
    (New recOps 0 0 ([] : List Nat)).m = 1 ∧
    (New recOps 0 0 ([] : List Nat)).k = 1 ∧
    (New recOps 0 0 ([] : List Nat)).b = [0] ∧
    (New recOps 0 0 ([] : List Nat)).b ≠ [(New recOps 0 0 ([] : List Nat)).m] :=
  ⟨by decide, by decide, by decide, by decide⟩

/-- C4 amended: `New(m, k, storage)` clamps the stored `m` and `k` below
at 1 (so `New(0,0,·)` yields `m = k = 1` and never panics), and
initializes the storage via `Init` with the *original* `m`; for `m ≥ 1`
(here `m + 1`) that argument coincides with the filter's stored `m`. -/
theorem New_clamps_inits_original (ops : BitSet σ) (m k : Nat) (b : σ) :
    (New ops m k b).m = max 1 m ∧ (New ops m k b).k = max 1 k ∧
    1 ≤ (New ops m k b).m ∧ 1 ≤ (New ops m k b).k ∧
    (New ops m k b).b = ops.Init b m ∧
    (New ops (m + 1) k b).m = m + 1 ∧
    (New recOps (m + 1) k ([] : List Nat)).b
      = [(New recOps (m + 1) k ([] : List Nat)).m] := by
  refine ⟨rfl, rfl, le_max_left 1 m, le_max_left 1 k, rfl, ?_, ?_⟩
  · show max 1 (m + 1) = m + 1
    exact Nat.max_eq_right (by omega)
  · show [m + 1] = [max 1 (m + 1)]
    rw [Nat.max_eq_right (by omega)]

/-- The result flag of the `TestAndAdd` loop: true iff the incoming flag
was true and every location in the list was set *in the initial state*
(a location set earlier in the same call contributes the same base-state
bit, so the evolving-state tests collapse to base-state tests). -/
theorem testAndAddGo_result (ops : BitSet σ) (hlaw : TestSetLaw ops)
    (ls : List Nat) (b : σ) (p : Bool) :
    (testAndAddGo ops ls b p).1 = (p && ls.all (ops.Test b)) := by
  induction ls generalizing b p with
  | nil => simp [testAndAddGo]
  | cons l ls ih =>
    simp only [testAndAddGo]
    rw [ih, List.all_cons]
    by_cases ht : ops.Test b l = true
    · have hfun : ops.Test (ops.Set b l) = ops.Test b := by
        funext z
        rw [hlaw]
        by_cases hz : z = l
        · subst hz; simp [ht]
        · simp [hz]
      rw [hfun, Bool.and_assoc]
    · have ht' : ops.Test b l = false := Bool.eq_false_iff.mpr ht
      rw [ht']
      simp

/-- The result flag of the `TestOrAdd` loop, same characterization. -/
theorem testOrAddGo_result (ops : BitSet σ) (hlaw : TestSetLaw ops)
    (ls : List Nat) (b : σ) (p : Bool) :
    (testOrAddGo ops ls b p).1 = (p && ls.all (ops.Test b)) := by
  induction ls generalizing b p with
  | nil => simp [testOrAddGo]
  | cons l ls ih =>
    simp only [testOrAddGo]
    by_cases ht : ops.Test b l = true
    · rw [if_pos ht, ih, List.all_cons, ht]
      simp
    · have ht' : ops.Test b l = false := Bool.eq_false_iff.mpr ht
      rw [if_neg ht]
      simp only []
      rw [ih, List.all_cons, ht']
      simp

/-- The bit state after the `TestAndAdd` loop is the fold of `Set` over
all the locations. -/
theorem testAndAddGo_state (ops : BitSet σ) (ls : List Nat) (b : σ) (p : Bool) :
    (testAndAddGo ops ls b p).2.1 = ls.foldl ops.Set b := by
  induction ls generalizing b p with
  | nil => rfl
  | cons l ls ih => simp [testAndAddGo, ih]

/-- Observations after the `TestOrAdd` loop: a bit reads set iff it was
among the locations or already set before. -/
theorem testOrAddGo_obs (ops : BitSet σ) (hlaw : TestSetLaw ops)
    (ls : List Nat) (b : σ) (p : Bool) (x : Nat) :
    ops.Test (testOrAddGo ops ls b p).2.1 x = (ls.contains x || ops.Test b x) := by
  induction ls generalizing b p with
  | nil => simp [testOrAddGo]
  | cons l ls ih =>
    simp only [testOrAddGo]
    by_cases ht : ops.Test b l = true
    · rw [if_pos ht, ih, List.contains_cons]
      by_cases hx : x = l
      · subst hx; simp [ht]
      · have hb : (x == l) = false := beq_eq_false_iff_ne.mpr hx
        simp [hb]
    · rw [if_neg ht]
      simp only []
      rw [ih, hlaw, List.contains_cons]
      by_cases hx : x = l
      · subst hx; simp
      · have hb : (x == l) = false := beq_eq_false_iff_ne.mpr hx
        simp [hb, hx]

/-- Every index the `TestOrAdd` loop passes to `Set` was unset in the
state the call started from. -/
theorem testOrAddGo_calls_unset (ops : BitSet σ) (hlaw : TestSetLaw ops)
    (ls : List Nat) (b : σ) (p : Bool) :
    ∀ x ∈ (testOrAddGo ops ls b p).2.2, ops.Test b x = false := by
  induction ls generalizing b p with
  | nil => intro x hx; simp [testOrAddGo] at hx
  | cons l ls ih =>
    intro x hx
    simp only [testOrAddGo] at hx
    by_cases ht : ops.Test b l = true
    · rw [if_pos ht] at hx
      exact ih b p x hx
    · have ht' : ops.Test b l = false := Bool.eq_false_iff.mpr ht
      rw [if_neg ht] at hx
      simp only [List.mem_cons] at hx
      rcases hx with rfl | hx
      · exact ht'
      · have hset := ih (ops.Set b l) false x hx
        rw [hlaw] at hset
        exact (Bool.or_eq_false_iff.mp hset).2

/-- C3: `TestOrAdd` returns the same boolean as `TestAndAdd` on the same
state — true iff all `k` derived bits were set before the call; after
either call all `k` derived positions are set; `TestAndAdd` calls `Set`
on every one of the `k` locations regardless of prior state, while
`TestOrAdd` calls `Set` only on locations found unset; on a freshly
cleared filter both return false on the first call and true on the
second. -/
theorem testOrAdd_matches_testAndAdd (ops : BitSet σ) (hlaw : TestSetLaw ops)
    (f : bloomFilterImpl σ) (hm : 1 ≤ f.m) (hk : 1 ≤ f.k) (data : Bytes) :
    (TestOrAdd ops f data).1 = (TestAndAdd ops f data).1 ∧
    (TestAndAdd ops f data).1
      = (locations (baseHashes data) f.k f.m).all (ops.Test f.b) ∧
    (∀ l ∈ locations (baseHashes data) f.k f.m,
        ops.Test (TestAndAdd ops f data).2.1.b l = true) ∧
    (∀ l ∈ locations (baseHashes data) f.k f.m,
        ops.Test (TestOrAdd ops f data).2.1.b l = true) ∧
    (TestAndAdd ops f data).2.2 = locations (baseHashes data) f.k f.m ∧
    (∀ l ∈ (TestOrAdd ops f data).2.2, ops.Test f.b l = false) ∧
    ((∀ j, ops.Test f.b j = false) →
      (TestAndAdd ops f data).1 = false ∧
      (TestOrAdd ops f data).1 = false ∧
      (TestAndAdd ops (TestAndAdd ops f data).2.1 data).1 = true ∧
      (TestOrAdd ops (TestOrAdd ops f data).2.1 data).1 = true) := by
  have hA1 : (TestAndAdd ops f data).1
      = (locations (baseHashes data) f.k f.m).all (ops.Test f.b) := by
    show (testAndAddGo ops (locations (baseHashes data) f.k f.m) f.b true).1 = _
    rw [testAndAddGo_result ops hlaw, Bool.true_and]
  have hO1 : (TestOrAdd ops f data).1
      = (locations (baseHashes data) f.k f.m).all (ops.Test f.b) := by
    show (testOrAddGo ops (locations (baseHashes data) f.k f.m) f.b true).1 = _
    rw [testOrAddGo_result ops hlaw, Bool.true_and]
  have hAstate : (TestAndAdd ops f data).2.1.b
      = (locations (baseHashes data) f.k f.m).foldl ops.Set f.b :=
    testAndAddGo_state ops _ f.b true
  have hApost : ∀ l ∈ locations (baseHashes data) f.k f.m,
      ops.Test (TestAndAdd ops f data).2.1.b l = true := by
    intro l hl
    have hc : (locations (baseHashes data) f.k f.m).contains l = true := by
      simpa using hl
    rw [hAstate, Test_foldl_Set ops hlaw, hc]
    simp
  have hOpost : ∀ l ∈ locations (baseHashes data) f.k f.m,
      ops.Test (TestOrAdd ops f data).2.1.b l = true := by
    intro l hl
    have hc : (locations (baseHashes data) f.k f.m).contains l = true := by
      simpa using hl
    show ops.Test
        (testOrAddGo ops (locations (baseHashes data) f.k f.m) f.b true).2.1 l = true
    rw [testOrAddGo_obs ops hlaw, hc]
    simp
  refine ⟨hO1.trans hA1.symm, hA1, hApost, hOpost,
    testAndAddGo_calls ops _ f.b true,
    fun l hl => testOrAddGo_calls_unset ops hlaw _ f.b true l hl, ?_⟩
  intro hz
  have hmem0 : location (baseHashes data) 0 f.m
      ∈ locations (baseHashes data) f.k f.m := by
    simp only [locations, List.mem_map]
    exact ⟨0, List.mem_range.mpr (by omega), rfl⟩
  have hallfalse :
      (locations (baseHashes data) f.k f.m).all (ops.Test f.b) = false := by
    refine Bool.eq_false_iff.mpr (fun hall => ?_)
    have h0 := List.all_eq_true.mp hall _ hmem0
    rw [hz] at h0
    exact Bool.false_ne_true h0
  have h2A : (TestAndAdd ops (TestAndAdd ops f data).2.1 data).1 = true := by
    show (testAndAddGo ops (locations (baseHashes data) f.k f.m)
        (TestAndAdd ops f data).2.1.b true).1 = true
    rw [testAndAddGo_result ops hlaw, Bool.true_and, List.all_eq_true]
    exact hApost
  have h2O : (TestOrAdd ops (TestOrAdd ops f data).2.1 data).1 = true := by
    show (testOrAddGo ops (locations (baseHashes data) f.k f.m)
        (TestOrAdd ops f data).2.1.b true).1 = true
    rw [testOrAddGo_result ops hlaw, Bool.true_and, List.all_eq_true]
    exact hOpost
  exact ⟨by rw [hA1]; exact hallfalse, by rw [hO1]; exact hallfalse, h2A, h2O⟩

/-- Witness for C3 at a concrete Redis-backed filter. -/
theorem testOrAdd_matches_testAndAdd_witness :
    TestSetLaw redisOps ∧ 1 ≤ sampleRedisFilter.m ∧ 1 ≤ sampleRedisFilter.k ∧
    ((TestOrAdd redisOps sampleRedisFilter [9]).1
        = (TestAndAdd redisOps sampleRedisFilter [9]).1 ∧
     (TestAndAdd redisOps sampleRedisFilter [9]).1
        = (locations (baseHashes [9]) sampleRedisFilter.k
            sampleRedisFilter.m).all (redisOps.Test sampleRedisFilter.b) ∧
     (∀ l ∈ locations (baseHashes [9]) sampleRedisFilter.k sampleRedisFilter.m,
        redisOps.Test (TestAndAdd redisOps sampleRedisFilter [9]).2.1.b l = true) ∧
     (∀ l ∈ locations (baseHashes [9]) sampleRedisFilter.k sampleRedisFilter.m,
        redisOps.Test (TestOrAdd redisOps sampleRedisFilter [9]).2.1.b l = true) ∧
     (TestAndAdd redisOps sampleRedisFilter [9]).2.2
        = locations (baseHashes [9]) sampleRedisFilter.k sampleRedisFilter.m ∧
     (∀ l ∈ (TestOrAdd redisOps sampleRedisFilter [9]).2.2,
        redisOps.Test sampleRedisFilter.b l = false) ∧
     ((∀ j, redisOps.Test sampleRedisFilter.b j = false) →
       (TestAndAdd redisOps sampleRedisFilter [9]).1 = false ∧
       (TestOrAdd redisOps sampleRedisFilter [9]).1 = false ∧
       (TestAndAdd redisOps
           (TestAndAdd redisOps sampleRedisFilter [9]).2.1 [9]).1 = true ∧
       (TestOrAdd redisOps
           (TestOrAdd redisOps sampleRedisFilter [9]).2.1 [9]).1 = true)) :=
  ⟨redis_TestSetLaw, by decide, by decide,
    testOrAdd_matches_testAndAdd redisOps redis_TestSetLaw sampleRedisFilter
      (by decide) (by decide) [9]⟩

/-! ### Wire-format lemmas -/

theorem length_be8 (n : Nat) : (be8 n).length = 8 := rfl

set_option maxHeartbeats 1000000 in
theorem beVal_be8 (n : Nat) (h : n < 2 ^ 64) : beVal (be8 n) = n := by
  simp only [be8, beVal, List.foldl]
  norm_num
  omega

theorem readU64_be8 (n : Nat) (rest : Bytes) (h : n < 2 ^ 64) :
    readU64 (be8 n ++ rest) = some (n, rest) := by
  unfold readU64
  rw [if_pos (by simp [length_be8])]
  rw [show (8 : Nat) = (be8 n).length from rfl, List.take_left, List.drop_left,
    beVal_be8 n h]

theorem readU64_short (s : Bytes) (h : s.length < 8) : readU64 s = none := by
  unfold readU64
  rw [if_neg (by omega)]

theorem bufRead_exact (key rest : Bytes) :
    bufRead (key ++ rest) key.length = some (key, key.length, rest) := by
  by_cases h0 : key.length = 0
  · have hk : key = [] := List.length_eq_zero.mp h0
    subst hk
    simp [bufRead]
  · unfold bufRead
    rw [if_neg h0,
      if_neg (show ¬(key ++ rest).length = 0 by
        simp only [List.length_append]; omega)]
    rw [show key.length - (key ++ rest).length = 0 by simp,
      List.replicate, List.append_nil, List.take_left,
      Nat.min_eq_left (by simp), List.drop_left]

/-- `RedisBitSet.ReadFrom` after `RedisBitSet.WriteTo`: succeeds, adopts
the encoded key and TTL, and stores the encoded raw value under that key
in the receiving side's store. -/
theorem RedisReadFrom_RedisWriteTo (st target : RedisState) (rest : Bytes)
    (hkey : st.2.bitsetKey.length < 2 ^ 64)
    (httl : st.2.expiration < 2 ^ 64)
    (hval : (storeGet st.1 st.2.bitsetKey).length < 2 ^ 64) :
    RedisReadFrom target (RedisWriteTo st ++ rest)
      = ((storeSet target.1 st.2.bitsetKey (storeGet st.1 st.2.bitsetKey),
          ⟨st.2.bitsetKey, st.2.expiration⟩), some rest) := by
  unfold RedisWriteTo RedisReadFrom
  simp only [List.append_assoc]
  rw [Nat.mod_eq_of_lt hkey, Nat.mod_eq_of_lt httl, Nat.mod_eq_of_lt hval]
  rw [readU64_be8 _ _ hkey]
  simp only []
  rw [bufRead_exact]
  simp only []
  rw [readU64_be8 _ _ httl]
  simp only []
  rw [readU64_be8 _ _ hval]
  simp only []
  rw [bufRead_exact]

theorem readWords_encode (ws : List Nat) (hw : ∀ w ∈ ws, w < 2 ^ 64)
    (rest : Bytes) :
    readWords ws.length (ws.flatMap (fun w => be8 (w % 2 ^ 64)) ++ rest)
      = some (ws, rest) := by
  induction ws with
  | nil => simp [readWords]
  | cons w ws ih =>
    simp only [List.flatMap_cons, List.length_cons, readWords, List.append_assoc]
    rw [Nat.mod_eq_of_lt (hw w (by simp))]
    rw [readU64_be8 _ _ (hw w (by simp))]
    simp only []
    rw [ih (fun x hx => hw x (by simp [hx]))]

/-- `LocalReadFrom` after `LocalWriteTo`: reproduces the word array. -/
theorem LocalReadFrom_LocalWriteTo (ws target : LocalBitSet) (rest : Bytes)
    (hws : ws.length < 2 ^ 64) (hw : ∀ w ∈ ws, w < 2 ^ 64) :
    LocalReadFrom target (LocalWriteTo ws ++ rest) = (ws, some rest) := by
  unfold LocalWriteTo LocalReadFrom
  simp only [List.append_assoc]
  rw [Nat.mod_eq_of_lt hws, readU64_be8 _ _ hws]
  simp only []
  rw [readWords_encode ws hw rest]

/-- The engine's `ReadFrom` after its `WriteTo`, generically in the
backend: reproduces `m` and `k` and finishes with whatever the backend's
own decode produced. -/
theorem ReadFrom_WriteTo (ops : BitSet σ) (f g : bloomFilterImpl σ)
    (hm : f.m < 2 ^ 64) (hk : f.k < 2 ^ 64) (b' : σ) (rest : Bytes)
    (hb : ops.ReadFrom g.b (ops.WriteTo f.b) = (b', some rest)) :
    ReadFrom ops g (WriteTo ops f) = (⟨f.m, f.k, b'⟩, some rest) := by
  unfold WriteTo ReadFrom
  simp only [List.append_assoc]
  rw [Nat.mod_eq_of_lt hm, readU64_be8 _ _ hm]
  simp only []
  rw [Nat.mod_eq_of_lt hk, readU64_be8 _ _ hk]
  simp only []
  rw [hb]

/-- C2 counterexample: the structured (JSON) decode of a marshalled
filter returns an error instead of a filter — `MarshalJSON` encodes the
Shared storage as the empty JSON object (no exported fields), and
`UnmarshalJSON` fails on any non-null `b` payload because Go cannot
decode into the abstract `BitSet` interface.  Moreover the marshalled
form is constant in the store contents, so no decoder could recover an
`Equal`-true storage from it. -/
theorem json_round_trip_cex :
    UnmarshalJSON (MarshalJSON redisOps sampleRedisFilter) = none ∧
    MarshalJSON redisOps
        ⟨8, 2, (storeSet ([] : RedisStore) [107] [255], ⟨[107], 0⟩)⟩
      = MarshalJSON redisOps ⟨8, 2, (([] : RedisStore), ⟨[108], 0⟩)⟩ ∧
    Equal redisOps
        ⟨8, 2, (storeSet ([] : RedisStore) [107] [255], ⟨[107], 0⟩)⟩
        ⟨8, 2, (([] : RedisStore), ⟨[108], 0⟩)⟩ = false :=
  ⟨rfl, rfl, by decide⟩

/-- C2 amended: the *binary* encode→decode round trip reproduces `m`,
`k`, and an `Equal`-true bit storage, for both the Shared (Redis) and
the (spec-modelled) Local backend, regardless of the decoding handle's
prior key/state; the *structured* (JSON) encoding does not round-trip:
decoding errors on every marshalled filter for either backend, since the
`b` payload cannot be decoded into the abstract storage interface (and
for the Shared backend carries no bit contents at all). -/
theorem round_trip_binary
    (m k gm gk : Nat) (hm : m < 2 ^ 64) (hk : k < 2 ^ 64)
    (st g : RedisState)
    (hkey : st.2.bitsetKey.length < 2 ^ 64)
    (httl : st.2.expiration < 2 ^ 64)
    (hval : (storeGet st.1 st.2.bitsetKey).length < 2 ^ 64)
    (lm lk glm glk : Nat) (hlm : lm < 2 ^ 64) (hlk : lk < 2 ^ 64)
    (ws gws : LocalBitSet) (hws : ws.length < 2 ^ 64)
    (hw : ∀ w ∈ ws, w < 2 ^ 64) :
    ((ReadFrom redisOps ⟨gm, gk, g⟩ (WriteTo redisOps ⟨m, k, st⟩)).2 = some [] ∧
     (ReadFrom redisOps ⟨gm, gk, g⟩ (WriteTo redisOps ⟨m, k, st⟩)).1.m = m ∧
     (ReadFrom redisOps ⟨gm, gk, g⟩ (WriteTo redisOps ⟨m, k, st⟩)).1.k = k ∧
     Equal redisOps
       (ReadFrom redisOps ⟨gm, gk, g⟩ (WriteTo redisOps ⟨m, k, st⟩)).1
       ⟨m, k, st⟩ = true) ∧
    ((ReadFrom localOps ⟨glm, glk, gws⟩ (WriteTo localOps ⟨lm, lk, ws⟩)).2
        = some [] ∧
     (ReadFrom localOps ⟨glm, glk, gws⟩ (WriteTo localOps ⟨lm, lk, ws⟩)).1.m
        = lm ∧
     (ReadFrom localOps ⟨glm, glk, gws⟩ (WriteTo localOps ⟨lm, lk, ws⟩)).1.k
        = lk ∧
     Equal localOps
       (ReadFrom localOps ⟨glm, glk, gws⟩ (WriteTo localOps ⟨lm, lk, ws⟩)).1
       ⟨lm, lk, ws⟩ = true) ∧
    (∀ fr : bloomFilterImpl RedisState,
      UnmarshalJSON (MarshalJSON redisOps fr) = none) ∧
    (∀ fl : bloomFilterImpl LocalBitSet,
      UnmarshalJSON (MarshalJSON localOps fl) = none) := by
  have hbR : redisOps.ReadFrom g (redisOps.WriteTo st)
      = ((storeSet g.1 st.2.bitsetKey (storeGet st.1 st.2.bitsetKey),
          ⟨st.2.bitsetKey, st.2.expiration⟩), some []) := by
    show RedisReadFrom g (RedisWriteTo st) = _
    rw [show RedisWriteTo st = RedisWriteTo st ++ [] from (List.append_nil _).symm]
    exact RedisReadFrom_RedisWriteTo st g [] hkey httl hval
  have hR := ReadFrom_WriteTo redisOps ⟨m, k, st⟩ ⟨gm, gk, g⟩ hm hk _ [] hbR
  have hbL : localOps.ReadFrom gws (localOps.WriteTo ws) = (ws, some []) := by
    show LocalReadFrom gws (LocalWriteTo ws) = _
    rw [show LocalWriteTo ws = LocalWriteTo ws ++ [] from (List.append_nil _).symm]
    exact LocalReadFrom_LocalWriteTo ws gws [] hws hw
  have hL := ReadFrom_WriteTo localOps ⟨lm, lk, ws⟩ ⟨glm, glk, gws⟩ hlm hlk _ [] hbL
  refine ⟨⟨?_, ?_, ?_, ?_⟩, ⟨?_, ?_, ?_, ?_⟩, fun _ => rfl, fun _ => rfl⟩
  · rw [hR]
  · rw [hR]
  · rw [hR]
  · rw [hR]
    simp [Equal, redisOps, RedisEqual, storeGet_storeSet_self]
  · rw [hL]
  · rw [hL]
  · rw [hL]
  · rw [hL]
    simp [Equal, localOps]

/-- Witness for C2 (amended) at concrete filters over both backends. -/
theorem round_trip_binary_witness :
    ((3 : Nat) < 2 ^ 64 ∧ (4 : Nat) < 2 ^ 64 ∧
     (([107] : Bytes).length < 2 ^ 64 ∧ (5 : Nat) < 2 ^ 64) ∧
     (([5] : List Nat).length < 2 ^ 64 ∧ ∀ w ∈ ([5] : List Nat), w < 2 ^ 64)) ∧
    ((ReadFrom redisOps ⟨0, 0, (([] : RedisStore), ⟨[99], 1⟩)⟩
        (WriteTo redisOps
          ⟨3, 4, (storeSet ([] : RedisStore) [107] [7, 9], ⟨[107], 5⟩)⟩)).2
        = some [] ∧
     (ReadFrom redisOps ⟨0, 0, (([] : RedisStore), ⟨[99], 1⟩)⟩
        (WriteTo redisOps
          ⟨3, 4, (storeSet ([] : RedisStore) [107] [7, 9], ⟨[107], 5⟩)⟩)).1.m
        = 3 ∧
     (ReadFrom redisOps ⟨0, 0, (([] : RedisStore), ⟨[99], 1⟩)⟩
        (WriteTo redisOps
          ⟨3, 4, (storeSet ([] : RedisStore) [107] [7, 9], ⟨[107], 5⟩)⟩)).1.k
        = 4 ∧
     Equal redisOps
       (ReadFrom redisOps ⟨0, 0, (([] : RedisStore), ⟨[99], 1⟩)⟩
          (WriteTo redisOps
            ⟨3, 4, (storeSet ([] : RedisStore) [107] [7, 9], ⟨[107], 5⟩)⟩)).1
       ⟨3, 4, (storeSet ([] : RedisStore) [107] [7, 9], ⟨[107], 5⟩)⟩ = true) ∧
    ((ReadFrom localOps ⟨0, 0, ([] : LocalBitSet)⟩
        (WriteTo localOps ⟨2, 3, ([5] : LocalBitSet)⟩)).2 = some [] ∧
     (ReadFrom localOps ⟨0, 0, ([] : LocalBitSet)⟩
        (WriteTo localOps ⟨2, 3, ([5] : LocalBitSet)⟩)).1.m = 2 ∧
     (ReadFrom localOps ⟨0, 0, ([] : LocalBitSet)⟩
        (WriteTo localOps ⟨2, 3, ([5] : LocalBitSet)⟩)).1.k = 3 ∧
     Equal localOps
       (ReadFrom localOps ⟨0, 0, ([] : LocalBitSet)⟩
          (WriteTo localOps ⟨2, 3, ([5] : LocalBitSet)⟩)).1
       ⟨2, 3, ([5] : LocalBitSet)⟩ = true) ∧
    (∀ fr : bloomFilterImpl RedisState,
      UnmarshalJSON (MarshalJSON redisOps fr) = none) ∧
    (∀ fl : bloomFilterImpl LocalBitSet,
      UnmarshalJSON (MarshalJSON localOps fl) = none) :=
  ⟨⟨by decide, by decide, ⟨by decide, by decide⟩, ⟨by decide, by decide⟩⟩,
    round_trip_binary 3 4 0 0 (by decide) (by decide)
      (storeSet ([] : RedisStore) [107] [7, 9], ⟨[107], 5⟩)
      (([] : RedisStore), ⟨[99], 1⟩) (by decide) (by decide) (by decide)
      2 3 0 0 (by decide) (by decide) [5] [] (by decide) (by decide)⟩

/-- C7 amended (positive part): if the binary input is shorter than the
16-byte `m`/`k` header, the engine's `ReadFrom` returns an error with the
filter — `m`, `k` and the storage — entirely unchanged (both 8-byte
header reads use `io.ReadFull` semantics and fail before anything is
written). -/
theorem readFrom_header_truncation (ops : BitSet σ) (f : bloomFilterImpl σ)
    (stream : Bytes) (hs : stream.length < 16) :
    ReadFrom ops f stream = (f, none) := by
  unfold ReadFrom
  rcases lt_or_ge stream.length 8 with h | h
  · rw [readU64_short _ h]
  · unfold readU64
    rw [if_pos h]
    simp only []
    rw [if_neg (show ¬8 ≤ (List.drop 8 stream).length by
      rw [List.length_drop]; omega)]

/-- Witness for C7 (amended) at a concrete short stream. -/
theorem readFrom_header_truncation_witness :
    ([1, 2, 3] : Bytes).length < 16 ∧
    ReadFrom redisOps sampleRedisFilter [1, 2, 3] = (sampleRedisFilter, none) :=
  ⟨by decide,
    readFrom_header_truncation redisOps sampleRedisFilter [1, 2, 3] (by decide)⟩

/-- C7 counterexample: two truncated binary inputs refuting the claim.
First, dropping the final byte of a valid encoding makes the Shared
backend's `stream.Read` silently short-read: the engine's `ReadFrom`
returns *no error at all* and installs a zero-padded storage value
(`[7, 0]` instead of the encoded `[7, 9]`).  Second, an input truncated
right after the key bytes does return an error, but the Shared handle's
key has already been overwritten (`[99]` became `[107]`), so the state
is not unchanged on error. -/
theorem readFrom_truncation_cex :
    ((ReadFrom redisOps ⟨0, 0, (([] : RedisStore), ⟨[99], 1⟩)⟩
        ((WriteTo redisOps
          ⟨3, 4, (storeSet ([] : RedisStore) [107] [7, 9],
            ⟨[107], 5⟩)⟩).dropLast)).2).isSome = true ∧
    storeGet (ReadFrom redisOps ⟨0, 0, (([] : RedisStore), ⟨[99], 1⟩)⟩
        ((WriteTo redisOps
          ⟨3, 4, (storeSet ([] : RedisStore) [107] [7, 9],
            ⟨[107], 5⟩)⟩).dropLast)).1.b.1 [107] = [7, 0] ∧
    (ReadFrom redisOps ⟨0, 0, (([] : RedisStore), ⟨[99], 1⟩)⟩
        (be8 3 ++ be8 4 ++ be8 1 ++ [107])).2 = none ∧
    (ReadFrom redisOps ⟨0, 0, (([] : RedisStore), ⟨[99], 1⟩)⟩
        (be8 3 ++ be8 4 ++ be8 1 ++ [107])).1.b.2.bitsetKey = [107] := by
  decide

/-- C9: `EstimateFalsePositiveRate(m, k, n, b)` builds a fresh filter
with `New(m, k, b)`, adds exactly the 4-byte big-endian encodings of
`0 .. n-1`, probes exactly the 100000 keys `be4 (n+1) .. be4 (n+100000)`,
and returns the number of positive probes divided by 100000. -/
theorem estimateFalsePositiveRate_sampling (ops : BitSet σ) (m k n : Nat)
    (b : σ) (hn : n + 100000 < 2 ^ 32) :
    EstimateFalsePositiveRate ops m k n b
      = (((List.range 100000).countP fun j =>
            Test ops (((List.range n).map be4).foldl (Add ops) (New ops m k b))
              (be4 (n + 1 + j))) : ℚ) / 100000 := by
  have hn32 : n % 2 ^ 32 = n := Nat.mod_eq_of_lt (by omega)
  simp only [EstimateFalsePositiveRate, hn32]
  rw [List.countP_eq_length_filter, List.foldl_map]
  have hfil : ∀ g : bloomFilterImpl σ,
      (List.range 100000).filter (fun i => Test ops g (be4 ((i + n + 1) % 2 ^ 32)))
        = (List.range 100000).filter (fun j => Test ops g (be4 (n + 1 + j))) := by
    intro g
    apply List.filter_congr
    intro x hx
    have hx' : x < 100000 := List.mem_range.mp hx
    rw [Nat.mod_eq_of_lt (by omega), show x + n + 1 = n + 1 + x from by omega]
  rw [hfil]

/-- Witness for C9 at concrete parameters. -/
theorem estimateFalsePositiveRate_sampling_witness :
    (1 : Nat) + 100000 < 2 ^ 32 ∧
    EstimateFalsePositiveRate redisOps 8 2 1 (([] : RedisStore), ⟨[107], 0⟩)
      = (((List.range 100000).countP fun j =>
            Test redisOps
              (((List.range 1).map be4).foldl (Add redisOps)
                (New redisOps 8 2 (([] : RedisStore), ⟨[107], 0⟩)))
              (be4 (1 + 1 + j))) : ℚ) / 100000 :=
  ⟨by norm_num,
    estimateFalsePositiveRate_sampling redisOps 8 2 1
      (([] : RedisStore), ⟨[107], 0⟩) (by norm_num)⟩

/-! ### Rational bounds on the logarithms used by the estimators

`log (5/4)` is pinned between rational multiples of `log 2` via the
integer power comparisons `2^339 ≤ 5^146` and `5^643 ≤ 2^1493`, and
`log 2` itself via Mathlib's decimal bounds. -/

theorem log_two_pos : (0 : ℝ) < Real.log 2 :=
  lt_trans (by norm_num) Real.log_two_gt_d9

theorem log_five_quarters_lb :
    (47 : ℝ) / 146 * Real.log 2 ≤ Real.log (5 / 4) := by
  have hp : (2 : ℝ) ^ (47 : ℕ) ≤ (5 / 4 : ℝ) ^ (146 : ℕ) := by
    rw [div_pow, le_div_iff₀ (by positivity)]
    norm_num
  have hlog := Real.log_le_log (by positivity) hp
  rw [Real.log_pow, Real.log_pow] at hlog
  push_cast at hlog
  linarith

theorem log_five_quarters_ub :
    Real.log (5 / 4) ≤ (207 : ℝ) / 643 * Real.log 2 := by
  have hp : (5 / 4 : ℝ) ^ (643 : ℕ) ≤ (2 : ℝ) ^ (207 : ℕ) := by
    rw [div_pow, div_le_iff₀ (by positivity)]
    norm_num
  have hlog := Real.log_le_log (by positivity) hp
  rw [Real.log_pow, Real.log_pow] at hlog
  push_cast at hlog
  linarith

theorem log_hundred :
    Real.log 100 = 6 * Real.log 2 + 2 * Real.log (5 / 4) := by
  rw [show (100 : ℝ) = 2 ^ (6 : ℕ) * (5 / 4) ^ (2 : ℕ) by norm_num,
    Real.log_mul (by positivity) (by positivity), Real.log_pow, Real.log_pow]
  push_cast
  ring

theorem log_thousand :
    Real.log 1000 = 9 * Real.log 2 + 3 * Real.log (5 / 4) := by
  rw [show (1000 : ℝ) = 2 ^ (9 : ℕ) * (5 / 4) ^ (3 : ℕ) by norm_num,
    Real.log_mul (by positivity) (by positivity), Real.log_pow, Real.log_pow]
  push_cast
  ring

/-- C6: `EstimateParameters` computes exactly
`m = ceil(-n ln p / (ln 2)^2)` and `k = ceil(ln 2 * m / n)` (that is its
definition, modelling Go's float64 arithmetic over ℝ); in particular
`EstimateParameters(1000, 0.01) = (9586, 7)`. -/
theorem estimateParameters_golden :
    EstimateParameters 1000 (1 / 100) = (9586, 7) := by
  have ha1 := Real.log_two_gt_d9
  have ha2 := Real.log_two_lt_d9
  have ha0 := log_two_pos
  have hb1 := log_five_quarters_lb
  have hb2 := log_five_quarters_ub
  have hsq : (0 : ℝ) < Real.log 2 ^ 2 := pow_pos ha0 2
  have hm : (⌈-1 * ((1000 : ℕ) : ℝ) * Real.log (1 / 100) / Real.log 2 ^ 2⌉₊ : ℕ)
      = 9586 := by
    have hexpr : -1 * ((1000 : ℕ) : ℝ) * Real.log (1 / 100) / Real.log 2 ^ 2
        = (6000 * Real.log 2 + 2000 * Real.log (5 / 4)) / Real.log 2 ^ 2 := by
      rw [one_div, Real.log_inv, log_hundred]
      push_cast
      ring
    rw [hexpr, Nat.ceil_eq_iff (by norm_num)]
    constructor
    · rw [lt_div_iff₀ hsq]
      push_cast
      nlinarith [mul_lt_mul_of_pos_left ha2 ha0, hb1, ha0, ha1]
    · rw [div_le_iff₀ hsq]
      push_cast
      nlinarith [mul_lt_mul_of_pos_left ha1 ha0, hb2, ha0, ha2]
  have hk : (⌈Real.log 2 * ((9586 : ℕ) : ℝ) / ((1000 : ℕ) : ℝ)⌉₊ : ℕ) = 7 := by
    rw [Nat.ceil_eq_iff (by norm_num)]
    constructor
    · rw [lt_div_iff₀ (by push_cast; norm_num)]
      push_cast
      nlinarith [ha1]
    · rw [div_le_iff₀ (by push_cast; norm_num)]
      push_cast
      nlinarith [ha2]
  simp only [EstimateParameters]
  rw [hm, hk]

/-- `EstimateParameters(1000, 0.001) = (14378, 10)`: the parameters the
`ApproximatedSize` golden test builds its filter with. -/
theorem estimateParameters_1000_1000th :
    EstimateParameters 1000 (1 / 1000) = (14378, 10) := by
  have ha1 := Real.log_two_gt_d9
  have ha2 := Real.log_two_lt_d9
  have ha0 := log_two_pos
  have hb1 := log_five_quarters_lb
  have hb2 := log_five_quarters_ub
  have hsq : (0 : ℝ) < Real.log 2 ^ 2 := pow_pos ha0 2
  have hm : (⌈-1 * ((1000 : ℕ) : ℝ) * Real.log (1 / 1000) / Real.log 2 ^ 2⌉₊ : ℕ)
      = 14378 := by
    have hexpr : -1 * ((1000 : ℕ) : ℝ) * Real.log (1 / 1000) / Real.log 2 ^ 2
        = (9000 * Real.log 2 + 3000 * Real.log (5 / 4)) / Real.log 2 ^ 2 := by
      rw [one_div, Real.log_inv, log_thousand]
      push_cast
      ring
    rw [hexpr, Nat.ceil_eq_iff (by norm_num)]
    constructor
    · rw [lt_div_iff₀ hsq]
      push_cast
      nlinarith [mul_lt_mul_of_pos_left ha2 ha0, hb1, ha0, ha1]
    · rw [div_le_iff₀ hsq]
      push_cast
      nlinarith [mul_lt_mul_of_pos_left ha1 ha0, hb2, ha0, ha2]
  have hk : (⌈Real.log 2 * ((14378 : ℕ) : ℝ) / ((1000 : ℕ) : ℝ)⌉₊ : ℕ) = 10 := by
    rw [Nat.ceil_eq_iff (by norm_num)]
    constructor
    · rw [lt_div_iff₀ (by push_cast; norm_num)]
      push_cast
      nlinarith [ha1]
    · rw [div_le_iff₀ (by push_cast; norm_num)]
      push_cast
      nlinarith [ha2]
  simp only [EstimateParameters]
  rw [hm, hk]

set_option maxRecDepth 40000 in
/-- C8: `ApproximatedSize` returns `round(-m/k · ln(1 - x/m))` with `x`
the storage's current set-bit count — that is its definition, modelling
Go's float64 arithmetic over ℝ — and in particular, after inserting the
4 distinct keys `"Love"`, `"is"`, `"in"`, `"bloom"` into a filter built
with the parameters estimated for `n = 1000`, `p = 0.001` (that is,
`m = 14378`, `k = 10`), it returns exactly 4: the four keys occupy
`x = 40` distinct bit positions and `round(-14378/10 · ln(1 - 40/14378))
= round(4.0055…) = 4`. -/
theorem approximatedSize_golden :
    ApproximatedSize localOps
      ([[76, 111, 118, 101], [105, 115], [105, 110],
        [98, 108, 111, 111, 109]].foldl (Add localOps)
        (NewWithEstimates localOps 1000 (1 / 1000) ([] : LocalBitSet))) = 4 := by
  have hNW : NewWithEstimates localOps 1000 (1 / 1000) ([] : LocalBitSet)
      = New localOps 14378 10 ([] : LocalBitSet) := by
    unfold NewWithEstimates
    rw [estimateParameters_1000_1000th]
  rw [hNW]
  have hx : localOps.Count
      ([[76, 111, 118, 101], [105, 115], [105, 110],
        [98, 108, 111, 111, 109]].foldl (Add localOps)
        (New localOps 14378 10 ([] : LocalBitSet))).b = 40 := by
    decide
  have hm : ([[76, 111, 118, 101], [105, 115], [105, 110],
      [98, 108, 111, 111, 109]].foldl (Add localOps)
      (New localOps 14378 10 ([] : LocalBitSet))).m = 14378 := by
    decide
  have hk : ([[76, 111, 118, 101], [105, 115], [105, 110],
      [98, 108, 111, 111, 109]].foldl (Add localOps)
      (New localOps 14378 10 ([] : LocalBitSet))).k = 10 := by
    decide
  simp only [ApproximatedSize]
  rw [hx, hm, hk, Real.log_exp, div_one]
  have ht : (0 : ℝ) < 1 - (40 : ℝ) / 14378 := by norm_num
  have h1 : Real.log (1 - (40 : ℝ) / 14378) < -(40 / 14378) := by
    have := Real.log_lt_sub_one_of_pos ht (by norm_num)
    linarith
  have h2 : -((40 : ℝ) / 14338) ≤ Real.log (1 - (40 : ℝ) / 14378) := by
    have hpos : (0 : ℝ) < (1 - (40 : ℝ) / 14378)⁻¹ := by positivity
    have hlog := Real.log_le_sub_one_of_pos hpos
    rw [Real.log_inv] at hlog
    have hval : (1 - (40 : ℝ) / 14378)⁻¹ - 1 = 40 / 14338 := by norm_num
    linarith
  have hcast : ((40 : ℕ) : ℝ) = (40 : ℝ) := by norm_num
  have hcast2 : ((14378 : ℕ) : ℝ) = (14378 : ℝ) := by norm_num
  have hcast3 : ((10 : ℕ) : ℝ) = (10 : ℝ) := by norm_num
  rw [hcast, hcast2, hcast3]
  rw [Nat.floor_eq_iff (by nlinarith [h1])]
  constructor
  · push_cast
    nlinarith [h1]
  · push_cast
    nlinarith [h2]

end bloom
